import Mathlib

/-!
Verification development for the drl-missile-tracker pipeline.

The pipeline's Scoring Engine (`src/analysis/paper_scorer.py`) and the
collection adapters (`src/fetch_from_excel.py`, `src/fetch_missing_semantic.py`,
`src/collectors/arxiv_collector.py`) are shallowly embedded below.  Strings are
modelled as `List Char`; Python's `str.split`, `str.strip`, substring test
(`in`), `json.loads`, and dict update/merge are given executable models, and
the control flow of `score_paper` / `score_papers_batch` and of the entry
points is translated into pure functions over explicit inputs (the remote API
call outcome is an explicit parameter).
-/

/-- A string, modelled as its list of characters. -/
abbrev Str := List Char

/-- JSON values, as produced by `json.loads`.  Numbers are modelled as
integers: the subset that the scoring rubric's fields use.  Objects are
association lists with unique keys (duplicate keys collapse, last value wins,
as in Python's dict construction). -/
inductive Json where
  | null : Json
  | bool (b : Bool) : Json
  | num (n : Int) : Json
  | str (s : Str) : Json
  | arr (elems : List Json) : Json
  | obj (fields : List (Str × Json)) : Json

instance : Inhabited Json := ⟨Json.null⟩

/-- Model of Python `a.isPrefixOf`-style test: `listPre p s` is `true` iff the
list `p` is an initial segment of `s`. -/
def listPre : Str → Str → Bool
  | [], _ => true
  | a :: p, s =>
    match s with
    | b :: s' => a = b && listPre p s'
    | [] => false

/-- Model of Python's substring test `sep in s`: does `sep` occur as a
contiguous substring of `s`? -/
def containsSub (sep : Str) : Str → Bool
  | [] => sep.isEmpty
  | c :: rest => listPre sep (c :: rest) || containsSub sep rest

/-- Fuelled worker for the model of Python `s.split(sep)`: scan left to right,
cutting at each non-overlapping occurrence of `sep`.  The fuel only serves
structural termination; `pySplit` supplies enough of it. -/
def pySplitF : Nat → Str → Str → List Str
  | 0, _, s => [s]
  | _ + 1, [], s => [s]
  | _ + 1, _ :: _, [] => [[]]
  | fuel + 1, a :: sep', c :: rest =>
    if listPre (a :: sep') (c :: rest) then
      [] :: pySplitF fuel (a :: sep') ((c :: rest).drop (a :: sep').length)
    else
      match pySplitF fuel (a :: sep') rest with
      | [] => [[c]]
      | chunk :: chunks => (c :: chunk) :: chunks

/-- Model of Python `s.split(sep)` for a non-empty separator.  (Python raises
on an empty separator; we return `[s]` in that unused case.) -/
def pySplit (sep s : Str) : List Str := pySplitF (s.length + 1) sep s

/-- The fuelled splitter is independent of the fuel once the fuel exceeds the
length of the string being split. -/
theorem pySplitF_congr :
    ∀ (n : Nat) (sep s : Str) (m : Nat), s.length < n → s.length < m →
      pySplitF n sep s = pySplitF m sep s := by
  intro n
  induction n with
  | zero => intro sep s m h _; omega
  | succ n ih =>
    intro sep s m hn hm
    match m with
    | 0 => omega
    | m + 1 =>
      match sep, s with
      | [], s => rfl
      | _ :: _, [] => rfl
      | a :: sep', c :: rest =>
        simp only [pySplitF]
        have hr : rest.length < n := by simp at hn; omega
        have hr' : rest.length < m := by simp at hm; omega
        by_cases h : listPre (a :: sep') (c :: rest) = true
        · simp only [h, if_true]
          have hd : ((c :: rest).drop (a :: sep').length).length < n := by
            simp [List.length_drop]; omega
          have hd' : ((c :: rest).drop (a :: sep').length).length < m := by
            simp [List.length_drop]; omega
          rw [ih _ _ m hd hd']
        · rw [ih _ _ m hr hr']
          simp [h]

/-- The defining recurrence of `pySplit` on a cons cell, with the natural
(non-fuelled) recursive occurrences. -/
theorem pySplit_cons (a : Char) (sep' : Str) (c : Char) (rest : Str) :
    pySplit (a :: sep') (c :: rest) =
      if listPre (a :: sep') (c :: rest) then
        [] :: pySplit (a :: sep') ((c :: rest).drop (a :: sep').length)
      else
        match pySplit (a :: sep') rest with
        | [] => [[c]]
        | chunk :: chunks => (c :: chunk) :: chunks := by
  show pySplitF ((c :: rest).length + 1) (a :: sep') (c :: rest) = _
  simp only [pySplitF]
  by_cases h : listPre (a :: sep') (c :: rest) = true
  · simp only [h, if_true]
    have := pySplitF_congr ((c :: rest).length) (a :: sep')
      ((c :: rest).drop (a :: sep').length) (((c :: rest).drop (a :: sep').length).length + 1)
      (by simp [List.length_drop]; omega) (by omega)
    rw [this]; rfl
  · simp only [h, if_false]
    have := pySplitF_congr ((c :: rest).length) (a :: sep') rest (rest.length + 1)
      (by simp) (by omega)
    rw [this]; rfl

/-- The whitespace characters stripped by Python's `str.strip()`. -/
def isPyWs (c : Char) : Bool :=
  c = ' ' || c = '\t' || c = '\n' || c = '\r' || c = '\x0b' || c = '\x0c'

/-- Model of Python `s.strip()`: remove leading and trailing whitespace. -/
def pyStrip (s : Str) : Str :=
  ((s.dropWhile isPyWs).reverse.dropWhile isPyWs).reverse

example : pySplit "```".toList "a```b```c".toList = ["a".toList, "b".toList, "c".toList] := by decide
example : pySplit "```".toList "```x".toList = ["".toList, "x".toList] := by decide
example : containsSub "```".toList "ab``c".toList = false := by decide
example : pyStrip "  ab c\n".toList = "ab c".toList := by decide

/-- Whitespace accepted by `json.loads` between tokens. -/
def jsonWs (c : Char) : Bool := c = ' ' || c = '\t' || c = '\n' || c = '\r'

/-- Skip inter-token whitespace. -/
def skipWs (s : Str) : Str := s.dropWhile jsonWs

/-- Decimal digit test (code points 48 through 57). -/
def isDigitC (c : Char) : Bool := 47 < c.toNat && c.toNat < 58

/-- Value of a decimal digit (its code point minus that of the zero digit). -/
def digitVal (c : Char) : Nat := c.toNat - 48

/-- Value of a decimal digit string. -/
def digitsVal (ds : Str) : Nat := ds.foldl (fun acc c => acc * 10 + digitVal c) 0

/-- Value of a hexadecimal digit, for `\uXXXX` escapes.  Working on code
points: 48-57 are the decimal digits, 97-102 the lowercase and 65-70 the
uppercase hex letters, whose values start at 10. -/
def hexVal? (c : Char) : Option Nat :=
  let n := c.toNat
  if 47 < n && n < 58 then some (n - 48)
  else if 96 < n && n < 103 then some (n - 87)
  else if 64 < n && n < 71 then some (n - 55)
  else none

/-- Python dict assignment `d[k] = v`: replace the value in place if the key
is present (keeping its position), else append the binding at the end. -/
def dictSet (d : List (Str × Json)) (k : Str) (v : Json) : List (Str × Json) :=
  match d with
  | [] => [(k, v)]
  | (k', v') :: rest => if k' = k then (k', v) :: rest else (k', v') :: dictSet rest k v

/-- Python dict lookup `d.get(k)` (`none` when the key is absent). -/
def dictGet (d : List (Str × Json)) (k : Str) : Option Json :=
  match d with
  | [] => none
  | (k', v) :: rest => if k' = k then some v else dictGet rest k

/-- Python dict merge `\x7b**a, **b\x7d`: start from `a` and assign every
binding of `b` in order, so `b`'s values win on key collisions. -/
def dictMerge (a b : List (Str × Json)) : List (Str × Json) :=
  b.foldl (fun d kv => dictSet d kv.1 kv.2) a

/-- Decoded character for the single-character JSON string escapes. -/
def escChar? (c : Char) : Option Char :=
  if c = '"' then some '"'
  else if c = '\\' then some '\\'
  else if c = '/' then some '/'
  else if c = 'b' then some '\x08'
  else if c = 'f' then some '\x0c'
  else if c = 'n' then some '\n'
  else if c = 'r' then some '\r'
  else if c = 't' then some '\t'
  else none

/-- Parse the body of a JSON string literal, the opening quote already
consumed; returns the decoded characters and the input after the closing
quote.  Strict mode as in `json.loads`: raw control characters and unknown
escapes are rejected; `\uXXXX` becomes the character with that code point. -/
def parseStrBody : Nat → Str → Option (Str × Str)
  | 0, _ => none
  | fuel + 1, s =>
    match s with
    | [] => none
    | '"' :: r => some ([], r)
    | '\\' :: e :: r =>
      match e with
      | 'u' =>
        match r with
        | h1 :: h2 :: h3 :: h4 :: r' =>
          match hexVal? h1, hexVal? h2, hexVal? h3, hexVal? h4 with
          | some a, some b, some c, some d =>
            (parseStrBody fuel r').map
              (fun p => (Char.ofNat (((a * 16 + b) * 16 + c) * 16 + d) :: p.1, p.2))
          | _, _, _, _ => none
        | _ => none
      | _ =>
        match escChar? e with
        | some ec => (parseStrBody fuel r).map (fun p => (ec :: p.1, p.2))
        | none => none
    | ['\\'] => none
    | c :: r =>
      if c.toNat < 32 then none
      else (parseStrBody fuel r).map (fun p => (c :: p.1, p.2))

/-- Parse an integer JSON numeral (optional minus sign then digits).  Numbers
are modelled in the integer subset the scoring rubric uses; fraction and
exponent forms are outside the model. -/
def parseNum (s : Str) : Option (Int × Str) :=
  match s with
  | '-' :: r =>
    let ds := r.takeWhile isDigitC
    if ds.isEmpty then none
    else some (-(digitsVal ds : Int), r.drop ds.length)
  | _ =>
    let ds := s.takeWhile isDigitC
    if ds.isEmpty then none
    else some ((digitsVal ds : Int), s.drop ds.length)

mutual

/-- Parse one JSON value (leading whitespace allowed); fuelled recursive
descent modelling `json.loads`. -/
def parseVal : Nat → Str → Option (Json × Str)
  | 0, _ => none
  | fuel + 1, s =>
    match skipWs s with
    | 'n' :: 'u' :: 'l' :: 'l' :: r => some (.null, r)
    | 't' :: 'r' :: 'u' :: 'e' :: r => some (.bool true, r)
    | 'f' :: 'a' :: 'l' :: 's' :: 'e' :: r => some (.bool false, r)
    | '"' :: r => (parseStrBody fuel r).map (fun p => (.str p.1, p.2))
    | '[' :: r =>
      match skipWs r with
      | ']' :: r' => some (.arr [], r')
      | _ => parseItems fuel r []
    | '\x7b' :: r =>
      match skipWs r with
      | '\x7d' :: r' => some (.obj [], r')
      | _ => parseMembers fuel r []
    | s' => (parseNum s').map (fun p => (.num p.1, p.2))

/-- Parse the elements of a non-empty JSON array, after the opening bracket. -/
def parseItems : Nat → Str → List Json → Option (Json × Str)
  | 0, _, _ => none
  | fuel + 1, s, acc =>
    match parseVal fuel s with
    | none => none
    | some (v, r) =>
      match skipWs r with
      | ',' :: r' => parseItems fuel r' (acc ++ [v])
      | ']' :: r' => some (.arr (acc ++ [v]), r')
      | _ => none

/-- Parse the members of a non-empty JSON object, after the opening brace.
Duplicate keys behave as repeated dict assignment, exactly as in
`json.loads`. -/
def parseMembers : Nat → Str → List (Str × Json) → Option (Json × Str)
  | 0, _, _ => none
  | fuel + 1, s, acc =>
    match skipWs s with
    | '"' :: r =>
      match parseStrBody fuel r with
      | none => none
      | some (k, r1) =>
        match skipWs r1 with
        | ':' :: r2 =>
          match parseVal fuel r2 with
          | none => none
          | some (v, r3) =>
            match skipWs r3 with
            | ',' :: r4 => parseMembers fuel r4 (dictSet acc k v)
            | '\x7d' :: r4 => some (.obj (dictSet acc k v), r4)
            | _ => none
        | _ => none
    | _ => none

end

/-- Model of `json.loads`: parse one JSON value and require only whitespace
after it. -/
def parseJson (s : Str) : Option Json :=
  match parseVal (2 * s.length + 2) s with
  | some (v, r) => if skipWs r = [] then some v else none
  | none => none

example : parseJson " \x7b\"a\": 1, \"b\": [true, null]\x7d ".toList =
    some (Json.obj [("a".toList, Json.num 1), ("b".toList, Json.arr [Json.bool true, Json.null])]) := by
  rfl
example : parseJson "\x7b\"a\": \"x".toList = none := by rfl
example : parseJson "-12".toList = some (Json.num (-12)) := by rfl
example : parseJson "\x7b\"a\": 1\x7d oops".toList = none := by rfl

/-- The fenced-code-block marker with language tag, `"```json"`. -/
def fenceJson : Str := "```json".toList

/-- The bare fenced-code-block marker, `"```"`. -/
def fenceBare : Str := "```".toList

/-- The fence-stripping step of `score_paper` (src/analysis/paper_scorer.py,
lines 46-49):

    if "```json" in response_text:
        response_text = response_text.split("```json")[1].split("```")[0]
    elif "```" in response_text:
        response_text = response_text.split("```")[1].split("```")[0]

Python's `[1]` is modelled by `getD 1 []`; inside each branch the containment
test guarantees the split has at least two chunks, so the default is never
used. -/
def extractJsonText (r : Str) : Str :=
  if containsSub fenceJson r then
    (pySplit fenceBare ((pySplit fenceJson r).getD 1 [])).headD []
  else if containsSub fenceBare r then
    (pySplit fenceBare ((pySplit fenceBare r).getD 1 [])).headD []
  else r

/-- Fence stripping followed by `json.loads(response_text.strip())`
(src/analysis/paper_scorer.py, line 51). -/
def extractScores (r : Str) : Option Json :=
  parseJson (pyStrip (extractJsonText r))

/-- Outcome of the remote completion call in `score_paper`: either a reply
text together with the usage counters, or any raised exception (network,
auth, rate limit, empty content, ...). -/
inductive ApiOutcome where
  | ok (text : Str) (inputTokens outputTokens : Nat) : ApiOutcome
  | err : ApiOutcome

/-- The `tokens_used` key added to every successful score dict. -/
def tokensKey : Str := "tokens_used".toList

/-- Model of `score_paper` (src/analysis/paper_scorer.py, lines 19-65) as a
function of the API call outcome.  A raised call, a reply that is not valid
JSON after fence stripping (`json.JSONDecodeError`), and a reply whose parsed
value is not an object (the `scores['tokens_used'] = ...` assignment raises
`TypeError`, caught by the blanket `except`) all return `None`; a parsed
object is returned with `tokens_used` set to input plus output tokens. -/
def scorePaper (o : ApiOutcome) : Option (List (Str × Json)) :=
  match o with
  | .err => none
  | .ok text inTok outTok =>
    match extractScores text with
    | some (Json.obj fields) => some (dictSet fields tokensKey (Json.num (inTok + outTok)))
    | some _ => none
    | none => none

/-- The `tokens_used` value read back by `scores.get('tokens_used', 0)` in
`score_papers_batch` (line 109); `scorePaper` always stores a numeral there. -/
def tokensOf (scores : List (Str × Json)) : Nat :=
  match dictGet scores tokensKey with
  | some (Json.num n) => n.toNat
  | _ => 0

/-- One input row of the batch: the paper's fields (the CSV row as a dict)
together with the outcome its API call would have. -/
abbrev BatchRow := List (Str × Json) × ApiOutcome

/-- The per-row loop of `score_papers_batch` (lines 100-112): for each row in
order, call `score_paper`; on success append `\x7b**paper, **scores\x7d` to the
scored list and add `scores.get('tokens_used', 0)` to the token total; on
failure skip the row.  Returns the scored rows and the token total. -/
def processRows : List BatchRow → List (List (Str × Json)) × Nat
  | [] => ([], 0)
  | row :: rest =>
    match scorePaper row.2 with
    | some scores =>
      let acc := processRows rest
      (dictMerge row.1 scores :: acc.1, tokensOf scores + acc.2)
    | none => processRows rest

/-- The fixed price per million tokens in the cost estimate printed at line
127: `(total_tokens / 1_000_000) * 3`. -/
def pricePerMillionTokens : ℚ := 3

/-- The printed cost estimate, as an exact rational. -/
def estimatedCost (totalTokens : Nat) : ℚ :=
  ((totalTokens : ℚ) / 1000000) * pricePerMillionTokens

/-- The final report printed by a completed run (lines 121-127). -/
structure RunSummary where
  scoredCount : Nat
  attemptedCount : Nat
  totalTokens : Nat
  costEstimate : ℚ

/-- Observable result of one `score_papers_batch` call (lines 67-149). -/
structure BatchResult where
  /-- The input CSV was loaded (`pd.read_csv`, line 79). -/
  inputRead : Bool
  /-- The "No API key found" message was printed (line 89). -/
  missingKeyReported : Bool
  /-- Number of rows loaded and iterated over. -/
  attempted : Nat
  /-- Number of `score_paper` calls made. -/
  apiCalls : Nat
  /-- Rows written to the scored store, in order. -/
  scoredRows : List (List (Str × Json))
  /-- The accumulated `total_tokens` counter. -/
  totalTokens : Nat
  /-- The output CSV was written (line 119). -/
  outputWritten : Bool
  /-- The printed summary; `none` when the run returned before it. -/
  summary : Option RunSummary

/-- Model of `score_papers_batch`: the input file is read first (line 79),
`max_papers` truncates it (line 82; Python's `if max_papers:` is false for
both `None` and `0`, so neither truncates), and only then is the API key checked
(lines 87-90) -- a missing key prints a message and returns, after the read
but before any scoring, and nothing is written.  With a key present every row
is scored in order and the output and summary are produced. -/
def scorePapersBatch (apiKey : Option Str) (rows : List BatchRow)
    (maxPapers : Option Nat) : BatchResult :=
  let df := match maxPapers with
    | some n => if n = 0 then rows else rows.take n
    | none => rows
  match apiKey with
  | none =>
    { inputRead := true, missingKeyReported := true, attempted := df.length,
      apiCalls := 0, scoredRows := [], totalTokens := 0,
      outputWritten := false, summary := none }
  | some _ =>
    let acc := processRows df
    { inputRead := true, missingKeyReported := false, attempted := df.length,
      apiCalls := df.length, scoredRows := acc.1, totalTokens := acc.2,
      outputWritten := true,
      summary := some { scoredCount := acc.1.length, attemptedCount := df.length,
                        totalTokens := acc.2, costEstimate := estimatedCost acc.2 } }

/-- A list is an initial segment of itself followed by anything. -/
theorem listPre_self_append (s t : Str) : listPre s (s ++ t) = true := by
  induction s with
  | nil => rfl
  | cons a s ih => simp [listPre, ih]

/-- Initial segments are transitive. -/
theorem listPre_trans :
    ∀ (p q s : Str), listPre p q = true → listPre q s = true → listPre p s = true := by
  intro p
  induction p with
  | nil => intro q s _ _; rfl
  | cons a p ih =>
    intro q s hpq hqs
    match q, s with
    | b :: q', c :: s' =>
      simp [listPre] at hpq hqs ⊢
      obtain ⟨rfl, hpq'⟩ := hpq
      obtain ⟨rfl, hqs'⟩ := hqs
      exact ⟨rfl, ih q' s' hpq' hqs'⟩

/-- If a longer separator occurs as a substring, so does any initial segment
of it. -/
theorem containsSub_mono :
    ∀ (p q s : Str), listPre p q = true → containsSub q s = true → containsSub p s = true := by
  intro p q s hpq
  induction s with
  | nil =>
    intro h
    simp [containsSub] at h ⊢
    subst h
    match p, hpq with
    | [], _ => rfl
  | cons c rest ih =>
    intro h
    simp only [containsSub, Bool.or_eq_true] at h ⊢
    rcases h with h | h
    · exact Or.inl (listPre_trans p q (c :: rest) hpq h)
    · exact Or.inr (ih h)

/-- A non-empty separator occurs in any string that starts with it. -/
theorem containsSub_self_append (a : Char) (sep' t : Str) :
    containsSub (a :: sep') ((a :: sep') ++ t) = true := by
  simp only [containsSub, List.cons_append, Bool.or_eq_true]
  exact Or.inl (by simpa using listPre_self_append (a :: sep') t)

/-- A separator avoiding the character `b` that is an initial segment of
`s ++ b :: z` is already an initial segment of `s`. -/
theorem listPre_boundary :
    ∀ (sep s z : Str) (b : Char), b ∉ sep →
      listPre sep (s ++ b :: z) = true → listPre sep s = true := by
  intro sep
  induction sep with
  | nil => intro s z b _ _; rfl
  | cons a sep' ih =>
    intro s z b hb h
    match s with
    | [] =>
      exfalso
      simp [listPre] at h
      exact hb (h.1 ▸ List.mem_cons_self a sep')
    | c :: s' =>
      simp [listPre] at h ⊢
      refine ⟨h.1, ih s' z b (fun hmem => hb (List.mem_cons_of_mem a hmem)) h.2⟩

/-- Occurrences of a separator avoiding `b` cannot cross a `b` boundary: if
the separator occurs in neither `s` nor `z`, it does not occur in
`s ++ b :: z`. -/
theorem containsSub_boundary :
    ∀ (sep s z : Str) (b : Char), b ∉ sep →
      containsSub sep s = false → containsSub sep z = false →
      containsSub sep (s ++ b :: z) = false := by
  intro sep s z b hb hs hz
  induction s with
  | nil =>
    simp only [List.nil_append, containsSub, Bool.or_eq_false_iff]
    constructor
    · match sep, hs with
      | c :: sep', _ =>
        simp [listPre]
        intro hcb
        exact absurd (hcb ▸ List.mem_cons_self c sep') hb
    · exact hz
  | cons c s' ih =>
    simp only [containsSub, Bool.or_eq_false_iff] at hs
    simp only [List.cons_append, containsSub, Bool.or_eq_false_iff]
    refine ⟨?_, ih hs.2⟩
    cases h : listPre sep ((c :: s') ++ b :: z) with
    | false => exact h
    | true => exact absurd (listPre_boundary sep (c :: s') z b hb h) (by simp [hs.1])

/-- When the separator does not occur in the string, the split is a single
chunk: the string itself. -/
theorem pySplit_of_not_contains (a : Char) (sep' : Str) :
    ∀ (s : Str), containsSub (a :: sep') s = false → pySplit (a :: sep') s = [s] := by
  intro s
  induction s with
  | nil => intro _; rfl
  | cons c rest ih =>
    intro h
    simp only [containsSub, Bool.or_eq_false_iff] at h
    rw [pySplit_cons, if_neg (by simp [h.1]), ih h.2]

/-- Splitting a string that starts with the separator: an empty first chunk,
then the split of the remainder. -/
theorem pySplit_sep_append (a : Char) (sep' r : Str) :
    pySplit (a :: sep') ((a :: sep') ++ r) = [] :: pySplit (a :: sep') r := by
  have hpre : listPre (a :: sep') ((a :: sep') ++ r) = true := listPre_self_append _ _
  rw [show (a :: sep') ++ r = a :: (sep' ++ r) from rfl, pySplit_cons]
  simp only [← List.cons_append, hpre, if_true]
  rw [List.drop_left]

/-- Splitting `A ++ b :: sep` where the separator does not occur in `A` and
avoids `b`: one chunk `A ++ [b]` before the final separator, then an empty
chunk. -/
theorem pySplit_before_trailing_sep (a : Char) (sep' : Str) (b : Char)
    (hb : b ∉ (a :: sep')) :
    ∀ (A : Str), containsSub (a :: sep') A = false →
      pySplit (a :: sep') (A ++ b :: (a :: sep')) = [A ++ [b], []] := by
  intro A
  induction A with
  | nil =>
    intro _
    rw [List.nil_append, pySplit_cons]
    have hpre : listPre (a :: sep') (b :: (a :: sep')) = false := by
      cases h : listPre (a :: sep') (b :: (a :: sep')) with
      | false => rfl
      | true =>
        simp [listPre] at h
        exact absurd (h.1 ▸ List.mem_cons_self a sep') hb
    rw [if_neg (by simp [hpre])]
    have : pySplit (a :: sep') (a :: sep') = [[], []] := by
      have := pySplit_sep_append a sep' []
      simpa using this
    rw [this]
    rfl
  | cons c A' ih =>
    intro h
    simp only [containsSub, Bool.or_eq_false_iff] at h
    rw [List.cons_append, pySplit_cons]
    have hpre : listPre (a :: sep') (c :: (A' ++ b :: (a :: sep'))) = false := by
      cases hp : listPre (a :: sep') (c :: (A' ++ b :: (a :: sep'))) with
      | false => rfl
      | true =>
        have := listPre_boundary (a :: sep') (c :: A') (a :: sep') b hb (by simpa using hp)
        simp [h.1] at this
    rw [if_neg (by simp [hpre]), ih h.2]
    rfl


/-- Stripping ignores a leading whitespace character. -/
theorem pyStrip_cons_ws (c : Char) (s : Str) (hc : isPyWs c = true) :
    pyStrip (c :: s) = pyStrip s := by
  simp [pyStrip, List.dropWhile, hc]

/-- Stripping ignores a trailing whitespace character. -/
theorem pyStrip_append_ws (c : Char) (s : Str) (hc : isPyWs c = true) :
    pyStrip (s ++ [c]) = pyStrip s := by
  unfold pyStrip
  rcases hds : s.dropWhile isPyWs with _ | ⟨d, rest⟩
  · have h1 : (s ++ [c]).dropWhile isPyWs = [] := by
      rw [List.dropWhile_append]
      simp [hds, List.dropWhile, hc]
    simp [h1, hds]
  · have h1 : (s ++ [c]).dropWhile isPyWs = (d :: rest) ++ [c] := by
      rw [List.dropWhile_append]
      simp [hds]
    rw [h1]
    rw [show ((d :: rest) ++ [c]).reverse = c :: (d :: rest).reverse from by simp]
    simp [List.dropWhile, hc]

/-- Version of `containsSub_self_append` for any non-empty separator. -/
theorem containsSub_self_append' (sep : Str) (hne : sep ≠ []) (t : Str) :
    containsSub sep (sep ++ t) = true := by
  match sep, hne with
  | a :: sep', _ => exact containsSub_self_append a sep' t

/-- Version of `pySplit_of_not_contains` for any non-empty separator. -/
theorem pySplit_of_not_contains' (sep : Str) (hne : sep ≠ []) (s : Str)
    (h : containsSub sep s = false) : pySplit sep s = [s] := by
  match sep, hne with
  | a :: sep', _ => exact pySplit_of_not_contains a sep' s h

/-- Version of `pySplit_sep_append` for any non-empty separator. -/
theorem pySplit_sep_append' (sep : Str) (hne : sep ≠ []) (r : Str) :
    pySplit sep (sep ++ r) = [] :: pySplit sep r := by
  match sep, hne with
  | a :: sep', _ => exact pySplit_sep_append a sep' r

/-- Splitting the inside of a fence wrapping `b :: (t ++ b :: sep)` where the
separator avoids `b` and does not occur in `t`: the chunk before the trailing
separator, then an empty chunk. -/
theorem pySplit_wrap_inner (sep : Str) (hne : sep ≠ []) (b : Char) (hb : b ∉ sep)
    (t : Str) (h : containsSub sep t = false) :
    pySplit sep (b :: (t ++ b :: sep)) = [b :: (t ++ [b]), []] := by
  match sep, hne with
  | a :: sep', _ =>
    have hA : containsSub (a :: sep') (b :: t) = false := by
      have := containsSub_boundary (a :: sep') [] t b hb (by simp [containsSub]) h
      simpa using this
    exact pySplit_before_trailing_sep a sep' b hb (b :: t) hA

/-- The fence wrapping with a language tag: the reply text the Scoring Engine
receives when the model wraps the object text `t` as ```` ```json ```` ``t``
```` ``` ```` on separate lines. -/
def wrapFenceJson (t : Str) : Str := fenceJson ++ '\n' :: (t ++ '\n' :: fenceBare)

/-- The bare fence wrapping of the reply text `t`. -/
def wrapFenceBare (t : Str) : Str := fenceBare ++ '\n' :: (t ++ '\n' :: fenceBare)

/-- A text with no triple-backtick contains no fence marker with a language
tag either. -/
theorem not_containsSub_fenceJson (t : Str) (h : containsSub fenceBare t = false) :
    containsSub fenceJson t = false := by
  cases hj : containsSub fenceJson t with
  | false => rfl
  | true =>
    have := containsSub_mono fenceBare fenceJson t (by decide) hj
    simp [h] at this

/-- Extraction on a ```` ```json ````-fenced wrapping of a backtick-free text
recovers the text up to surrounding whitespace. -/
theorem extract_wrapFenceJson (t : Str) (h : containsSub fenceBare t = false) :
    pyStrip (extractJsonText (wrapFenceJson t)) = pyStrip t := by
  have hJt : containsSub fenceJson t = false := not_containsSub_fenceJson t h
  have hjson_nl : ('\n' : Char) ∉ fenceJson := by decide
  have hrest : containsSub fenceJson (t ++ '\n' :: fenceBare) = false :=
    containsSub_boundary fenceJson t fenceBare '\n' hjson_nl hJt (by decide)
  have hrest' : containsSub fenceJson ('\n' :: (t ++ '\n' :: fenceBare)) = false := by
    have := containsSub_boundary fenceJson [] (t ++ '\n' :: fenceBare) '\n' hjson_nl
      (by decide) hrest
    simpa using this
  have hcond : containsSub fenceJson (wrapFenceJson t) = true := by
    unfold wrapFenceJson
    exact containsSub_self_append' fenceJson (by decide) _
  have hsplit : pySplit fenceJson (wrapFenceJson t) =
      [[], '\n' :: (t ++ '\n' :: fenceBare)] := by
    unfold wrapFenceJson
    rw [pySplit_sep_append' fenceJson (by decide) _,
        pySplit_of_not_contains' fenceJson (by decide) _ hrest']
  unfold extractJsonText
  rw [if_pos hcond, hsplit]
  show pyStrip ((pySplit fenceBare ('\n' :: (t ++ '\n' :: fenceBare))).headD []) = pyStrip t
  rw [pySplit_wrap_inner fenceBare (by decide) '\n' (by decide) t h]
  show pyStrip ('\n' :: (t ++ ['\n'])) = pyStrip t
  rw [pyStrip_cons_ws '\n' (t ++ ['\n']) (by decide),
      pyStrip_append_ws '\n' t (by decide)]

/-- Extraction on a bare-fenced wrapping of a backtick-free text recovers the
text up to surrounding whitespace. -/
theorem extract_wrapFenceBare (t : Str) (h : containsSub fenceBare t = false) :
    pyStrip (extractJsonText (wrapFenceBare t)) = pyStrip t := by
  have hjson_nl : ('\n' : Char) ∉ fenceJson := by decide
  have hbare_nl : ('\n' : Char) ∉ fenceBare := by decide
  have hJt : containsSub fenceJson t = false := not_containsSub_fenceJson t h
  have hnoJson : containsSub fenceJson (wrapFenceBare t) = false := by
    unfold wrapFenceBare
    refine containsSub_boundary fenceJson fenceBare (t ++ '\n' :: fenceBare) '\n' hjson_nl
      (by decide) ?_
    exact containsSub_boundary fenceJson t fenceBare '\n' hjson_nl hJt (by decide)
  have hcond : containsSub fenceBare (wrapFenceBare t) = true := by
    unfold wrapFenceBare
    exact containsSub_self_append' fenceBare (by decide) _
  have hsplit : pySplit fenceBare (wrapFenceBare t) =
      [] :: [('\n' :: (t ++ ['\n'])), []] := by
    unfold wrapFenceBare
    rw [pySplit_sep_append' fenceBare (by decide) _,
        pySplit_wrap_inner fenceBare (by decide) '\n' (by decide) t h]
  unfold extractJsonText
  rw [if_neg (by simp [hnoJson]), if_pos hcond, hsplit]
  show pyStrip ((pySplit fenceBare ('\n' :: (t ++ ['\n']))).headD []) = pyStrip t
  have hA' : containsSub fenceBare ('\n' :: (t ++ ['\n'])) = false := by
    have h0 : containsSub fenceBare (t ++ ['\n']) = false := by
      have := containsSub_boundary fenceBare t [] '\n' hbare_nl h (by decide)
      simpa using this
    have := containsSub_boundary fenceBare [] (t ++ ['\n']) '\n' hbare_nl (by decide) h0
    simpa using this
  rw [pySplit_of_not_contains' fenceBare (by decide) _ hA']
  show pyStrip ('\n' :: (t ++ ['\n'])) = pyStrip t
  rw [pyStrip_cons_ws '\n' (t ++ ['\n']) (by decide),
      pyStrip_append_ws '\n' t (by decide)]

/-- A reply containing no fence marker at all is used verbatim. -/
theorem extract_unwrapped (t : Str) (h : containsSub fenceBare t = false) :
    extractJsonText t = t := by
  unfold extractJsonText
  rw [if_neg (by simp [not_containsSub_fenceJson t h]), if_neg (by simp [h])]

/-- A collected paper row, as the dict form of one CSV row. -/
abbrev PaperDict := List (Str × Json)

/-- The `url` column name. -/
def urlKey : Str := "url".toList

/-- The `url` value of a collected row (the collectors always store a string
there; a missing or non-string value reads as the empty string). -/
def urlOf (p : PaperDict) : Str :=
  match dictGet p urlKey with
  | some (Json.str s) => s
  | _ => []

/-- Worker for `df.drop_duplicates(subset=['url'])` with pandas' default
`keep='first'`: keep a row only when its url has not been seen yet. -/
def dropDuplicatesByUrlGo (seen : List Str) : List PaperDict → List PaperDict
  | [] => []
  | r :: rs =>
    if urlOf r ∈ seen then dropDuplicatesByUrlGo seen rs
    else r :: dropDuplicatesByUrlGo (urlOf r :: seen) rs

/-- Model of `df.drop_duplicates(subset=['url'])`
(src/collectors/arxiv_collector.py, line 49). -/
def drop_duplicates_by_url (rows : List PaperDict) : List PaperDict :=
  dropDuplicatesByUrlGo [] rows

/-- The rows `main` of the arXiv collector persists: the collected rows after
the dedup pass (src/collectors/arxiv_collector.py, lines 48-57). -/
def arxivMainStore (collected : List PaperDict) : List PaperDict :=
  drop_duplicates_by_url collected

/-- The fetch loop of `fetch_papers_from_excel`
(src/fetch_from_excel.py, lines 117-135): look up each title in order
(`search_paper_by_title` modelled as the `lookup` argument); returns the found
paper rows in order and the not-found titles in order.  No deduplication is
performed. -/
def fetchPapersLoop (lookup : Str → Option PaperDict) : List Str → List PaperDict × List Str
  | [] => ([], [])
  | t :: ts =>
    let acc := fetchPapersLoop lookup ts
    match lookup t with
    | some p => (p :: acc.1, acc.2)
    | none => (acc.1, t :: acc.2)

/-- The curated-store write of `fetch_papers_from_excel`
(src/fetch_from_excel.py, lines 142-147): when any paper was found,
`papers_df.to_csv(output_file, index=False)` replaces the whole file with this
run's rows; when nothing was found, no write happens and the previous store
stays. -/
def fetchFromExcelStore {α : Type} (prev found : List α) : List α :=
  if found.isEmpty then prev else found

/-- The curated-store write of `fetch_missing_papers`
(src/fetch_missing_semantic.py, lines 86-98): when any paper was found, read
the existing store (`none` models a missing file), concatenate the new rows
after it, and overwrite; when nothing was found, no write happens. -/
def fetchMissingStore {α : Type} (prev : Option (List α)) (found : List α) :
    Option (List α) :=
  if found.isEmpty then prev
  else
    match prev with
    | some rows => some (rows ++ found)
    | none => some found

/-- Observable behaviour of one stage entry point: the process exit code,
whether a missing-input message was printed, and whether the stage's main work
ran. -/
structure EntryResult where
  exitCode : Nat
  reportedMissing : Bool
  ranPipeline : Bool

/-- The columns the summary-statistics block of `score_papers_batch` reads
from the scored frame (src/analysis/paper_scorer.py, lines 136-144):
`scored_df['relevance_score']`, `['maturity_level']`, `['credibility_score']`,
`['integration_score']`, `['chinese_defense']`, and `['title']` via the
top-5 selection. -/
def statsColumns : List Str :=
  ["relevance_score".toList, "maturity_level".toList, "credibility_score".toList,
   "integration_score".toList, "chinese_defense".toList, "title".toList]

/-- A pandas frame built from a list of row dicts has a column exactly when
some row dict carries that key. -/
def frameHasColumn (rows : List (List (Str × Json))) (k : Str) : Bool :=
  rows.any (fun d => (dictGet d k).isSome)

/-- Whether the summary-statistics block (guarded by
`if len(scored_papers) > 0:`, line 131) raises `KeyError`: some accessed
column is absent from every scored row.  (Value-level failures inside a
present column are below this model's granularity.) -/
def summaryCrashes (rows : List (List (Str × Json))) : Bool :=
  !rows.isEmpty && statsColumns.any (fun k => !frameHasColumn rows k)

/-- The `__main__` block of src/analysis/paper_scorer.py (lines 151-169):
`sys.exit(1)` when the curated papers file is missing; otherwise run the
batch.  The summary statistics (lines 130-147) raise `KeyError` when a
referenced column is absent from the whole scored frame, which propagates and
exits the process with code 1; on the normal path the script falls off the
end with exit code 0. -/
def paperScorerEntry (inputExists : Bool) (apiKey : Option Str)
    (rows : List BatchRow) : EntryResult :=
  if inputExists then
    ⟨if summaryCrashes (scorePapersBatch apiKey rows none).scoredRows then 1 else 0,
     false, true⟩
  else ⟨1, true, false⟩

/-- The `__main__` block of the scorer as a whole: exit code together with the
batch result when the input file exists (the exit code includes the
`KeyError` path of the summary statistics, see `paperScorerEntry`). -/
def paperScorerMain (inputExists : Bool) (apiKey : Option Str) (rows : List BatchRow) :
    Nat × Option BatchResult :=
  if inputExists then
    ((paperScorerEntry true apiKey rows).exitCode, some (scorePapersBatch apiKey rows none))
  else (1, none)

/-- Looking up the key just set by a dict assignment returns the new value. -/
theorem dictGet_dictSet (d : List (Str × Json)) (k : Str) (v : Json) :
    dictGet (dictSet d k v) k = some v := by
  induction d with
  | nil => simp [dictSet, dictGet]
  | cons kv rest ih =>
    obtain ⟨k', v'⟩ := kv
    by_cases h : k' = k
    · simp [dictSet, dictGet, h]
    · simp [dictSet, dictGet, h, ih]

/-- A successful `score_paper` call on an `ok` outcome reports exactly the
call's input plus output tokens via `tokens_used`. -/
theorem tokensOf_scorePaper (text : Str) (i o : Nat) (s : List (Str × Json))
    (h : scorePaper (.ok text i o) = some s) : tokensOf s = i + o := by
  rcases hp : extractScores text with _ | v
  · rw [show scorePaper (.ok text i o) = none from by simp [scorePaper, hp]] at h
    exact absurd h (by simp)
  · cases v with
    | obj fields =>
      rw [show scorePaper (.ok text i o) =
            some (dictSet fields tokensKey (Json.num (i + o))) from by simp [scorePaper, hp]] at h
      simp only [Option.some.injEq] at h
      subst h
      simp only [tokensOf, dictGet_dictSet]
      omega
    | null =>
      rw [show scorePaper (.ok text i o) = none from by simp [scorePaper, hp]] at h
      exact absurd h (by simp)
    | bool b =>
      rw [show scorePaper (.ok text i o) = none from by simp [scorePaper, hp]] at h
      exact absurd h (by simp)
    | num n =>
      rw [show scorePaper (.ok text i o) = none from by simp [scorePaper, hp]] at h
      exact absurd h (by simp)
    | str s' =>
      rw [show scorePaper (.ok text i o) = none from by simp [scorePaper, hp]] at h
      exact absurd h (by simp)
    | arr xs =>
      rw [show scorePaper (.ok text i o) = none from by simp [scorePaper, hp]] at h
      exact absurd h (by simp)

/-- Tokens that the run's reported total attributes to a row: the call's input
plus output tokens when the call succeeded and its reply parsed to an object,
and nothing otherwise. -/
def callTokens (row : BatchRow) : Nat :=
  match row.2 with
  | .ok _ i o => if (scorePaper row.2).isSome then i + o else 0
  | .err => 0

/-- The accumulated token total of the batch loop is the sum of the per-row
attributions. -/
theorem processRows_tokens (rows : List BatchRow) :
    (processRows rows).2 = (rows.map callTokens).sum := by
  induction rows with
  | nil => rfl
  | cons row rest ih =>
    unfold processRows
    rcases hrow : row with ⟨paper, outcome⟩
    cases outcome with
    | err => simpa [callTokens, scorePaper] using ih
    | ok text i o =>
      rcases hs : scorePaper (.ok text i o) with _ | s
      · simp only [hs]
        have : callTokens (paper, .ok text i o) = 0 := by
          simp [callTokens, hs]
        simp [this, ih]
      · simp only [hs]
        have : callTokens (paper, .ok text i o) = i + o := by
          simp [callTokens, hs]
        simp [this, ih, tokensOf_scorePaper text i o s hs]

/-- Every row of the batch output arises from an input row whose call
succeeded, merged as `\x7b**paper, **scores\x7d`. -/
theorem processRows_mem (rows : List BatchRow) (d : List (Str × Json))
    (hd : d ∈ (processRows rows).1) :
    ∃ row ∈ rows, ∃ s, scorePaper row.2 = some s ∧ d = dictMerge row.1 s := by
  induction rows with
  | nil => simp [processRows] at hd
  | cons row rest ih =>
    unfold processRows at hd
    rcases hs : scorePaper row.2 with _ | s
    · rw [hs] at hd
      obtain ⟨r, hr, hr'⟩ := ih hd
      exact ⟨r, List.mem_cons_of_mem row hr, hr'⟩
    · rw [hs] at hd
      rcases List.mem_cons.mp hd with h | h
      · exact ⟨row, List.mem_cons_self row rest, s, hs, h⟩
      · obtain ⟨r, hr, hr'⟩ := ih h
        exact ⟨r, List.mem_cons_of_mem row hr, hr'⟩

/-- The number of scored rows is the number attempted minus the number of
failed calls. -/
theorem processRows_length (rows : List BatchRow) :
    (processRows rows).1.length =
      rows.length - rows.countP (fun row => (scorePaper row.2).isNone) := by
  induction rows with
  | nil => rfl
  | cons row rest ih =>
    have hb : rest.countP (fun row => (scorePaper row.2).isNone) ≤ rest.length :=
      List.countP_le_length _
    unfold processRows
    rcases hs : scorePaper row.2 with _ | s
    · simp only [hs, List.countP_cons, List.length_cons]
      simp [hs, ih]
    · simp only [hs, List.countP_cons, List.length_cons]
      simp only [List.length_cons, ih]
      have : (fun row => (scorePaper row.2).isNone) row = false := by simp [hs]
      simp [this]
      omega

/-- Counting rows with a given url after the dedup worker: one when the url is
not yet seen and occurs in the input, zero otherwise. -/
theorem dropDuplicatesByUrlGo_count (u : Str) :
    ∀ (rows : List PaperDict) (seen : List Str),
      (dropDuplicatesByUrlGo seen rows).countP (fun r => decide (urlOf r = u)) =
        if u ∉ seen ∧ rows.any (fun r => decide (urlOf r = u)) then 1 else 0 := by
  intro rows
  induction rows with
  | nil => intro seen; simp [dropDuplicatesByUrlGo]
  | cons r rs ih =>
    intro seen
    by_cases hseen : urlOf r ∈ seen
    · rw [dropDuplicatesByUrlGo, if_pos hseen, ih seen]
      by_cases hmem : u ∈ seen
      · simp [hmem]
      · have hne : ¬(urlOf r = u) := fun he => hmem (he ▸ hseen)
        simp [hmem, hne]
    · rw [dropDuplicatesByUrlGo, if_neg hseen]
      rw [List.countP_cons, ih (urlOf r :: seen)]
      by_cases hu : urlOf r = u
      · subst hu
        simp [hseen, List.mem_cons]
      · simp only [List.any_cons, List.mem_cons]
        have h1 : decide (urlOf r = u) = false := by simp [hu]
        have h2 : ¬(u = urlOf r) := fun he => hu he.symm
        simp [h1, h2]

/-- Setting a different key leaves a lookup unchanged. -/
theorem dictGet_dictSet_ne (d : List (Str × Json)) (k' k : Str) (v : Json)
    (hne : k' ≠ k) : dictGet (dictSet d k' v) k = dictGet d k := by
  induction d with
  | nil => simp [dictSet, dictGet, hne]
  | cons kv rest ih =>
    obtain ⟨k'', v''⟩ := kv
    by_cases h : k'' = k'
    · subst h
      simp [dictSet, dictGet, hne]
    · by_cases hk : k'' = k
      · simp [dictSet, dictGet, h, hk, Ne.symm hne]
      · simp [dictSet, dictGet, h, hk, ih]

/-- The key list after a dict assignment: unchanged when the key was present,
the key appended at the end otherwise. -/
theorem dictSet_keys (d : List (Str × Json)) (k : Str) (v : Json) :
    (dictSet d k v).map Prod.fst =
      if k ∈ d.map Prod.fst then d.map Prod.fst else d.map Prod.fst ++ [k] := by
  induction d with
  | nil => simp [dictSet]
  | cons kv rest ih =>
    obtain ⟨k', v'⟩ := kv
    by_cases h : k' = k
    · subst h
      simp [dictSet, List.mem_cons]
    · have hk : ¬(k = k') := fun hh => h hh.symm
      simp only [dictSet, if_neg h, List.map_cons, ih]
      by_cases hm : k ∈ rest.map Prod.fst
      · simp [hm, List.mem_cons, hk]
      · simp [hm, List.mem_cons, hk]

/-- A dict assignment preserves uniqueness of the keys. -/
theorem dictSet_keysNodup (d : List (Str × Json)) (k : Str) (v : Json)
    (h : (d.map Prod.fst).Nodup) : ((dictSet d k v).map Prod.fst).Nodup := by
  rw [dictSet_keys]
  by_cases hm : k ∈ d.map Prod.fst
  · rw [if_pos hm]; exact h
  · rw [if_neg hm]
    rw [List.nodup_append]
    refine ⟨h, List.nodup_singleton k, ?_⟩
    intro a ha hb
    rw [List.mem_singleton] at hb
    exact hm (hb ▸ ha)

/-- Merging a dict whose keys avoid `k` leaves the lookup of `k` unchanged. -/
theorem dictGet_dictMerge_not_mem :
    ∀ (b a : List (Str × Json)) (k : Str), k ∉ b.map Prod.fst →
      dictGet (dictMerge a b) k = dictGet a k := by
  intro b
  induction b with
  | nil => intro a k _; rfl
  | cons kv b' ih =>
    intro a k hk
    obtain ⟨k', v'⟩ := kv
    simp only [List.map_cons, List.mem_cons] at hk
    push_neg at hk
    have hstep : dictMerge a ((k', v') :: b') = dictMerge (dictSet a k' v') b' := rfl
    rw [hstep, ih (dictSet a k' v') k hk.2,
        dictGet_dictSet_ne a k' k v' (fun he => hk.1 he.symm)]

/-- When the merged-in dict has unique keys, a key it binds looks up to its
value after the merge (Python: `\x7b**a, **b\x7d[k] == b[k]` for `k` in `b`). -/
theorem dictGet_dictMerge_nodup :
    ∀ (b a : List (Str × Json)) (k : Str) (v : Json), (b.map Prod.fst).Nodup →
      dictGet b k = some v → dictGet (dictMerge a b) k = some v := by
  intro b
  induction b with
  | nil => intro a k v _ h; exact absurd h (by simp [dictGet])
  | cons kv b' ih =>
    intro a k v hnd hget
    obtain ⟨k', v'⟩ := kv
    simp only [List.map_cons, List.nodup_cons] at hnd
    have hstep : dictMerge a ((k', v') :: b') = dictMerge (dictSet a k' v') b' := rfl
    rw [hstep]
    by_cases h : k' = k
    · subst h
      have hv : v' = v := by simpa [dictGet] using hget
      subst hv
      rw [dictGet_dictMerge_not_mem b' (dictSet a k' v') k' hnd.1,
          dictGet_dictSet a k' v']
    · have hget' : dictGet b' k = some v := by simpa [dictGet, h] using hget
      exact ih (dictSet a k' v') k v hnd.2 hget'

/-- The array parser never returns an object. -/
theorem parseItems_ne_obj :
    ∀ (fuel : Nat) (s : Str) (acc : List Json) (fields : List (Str × Json)) (r : Str),
      parseItems fuel s acc ≠ some (Json.obj fields, r) := by
  intro fuel
  induction fuel with
  | zero => intro s acc fields r h; exact absurd h (by simp [parseItems])
  | succ fuel ih =>
    intro s acc fields r h
    unfold parseItems at h
    split at h
    · simp at h
    · split at h
      · exact ih _ _ _ _ h
      · simp at h
      · simp at h

/-- An object produced by the member parser from an accumulator with unique
keys has unique keys: members are added with dict assignment. -/
theorem parseMembers_obj_nodup :
    ∀ (fuel : Nat) (s : Str) (acc : List (Str × Json)), (acc.map Prod.fst).Nodup →
      ∀ (fields : List (Str × Json)) (r : Str),
        parseMembers fuel s acc = some (Json.obj fields, r) →
        (fields.map Prod.fst).Nodup := by
  intro fuel
  induction fuel with
  | zero => intro s acc _ fields r h; exact absurd h (by simp [parseMembers])
  | succ fuel ih =>
    intro s acc hacc fields r h
    unfold parseMembers at h
    split at h
    · split at h
      · simp at h
      · split at h
        · split at h
          · simp at h
          · split at h
            · exact ih _ _ (dictSet_keysNodup _ _ _ hacc) _ _ h
            · simp only [Option.some.injEq, Prod.mk.injEq, Json.obj.injEq] at h
              rw [← h.1]
              exact dictSet_keysNodup _ _ _ hacc
            · simp at h
        · simp at h
    · simp at h

/-- An object produced by the value parser has unique keys. -/
theorem parseVal_obj_nodup :
    ∀ (fuel : Nat) (s : Str) (fields : List (Str × Json)) (r : Str),
      parseVal fuel s = some (Json.obj fields, r) → (fields.map Prod.fst).Nodup := by
  intro fuel
  cases fuel with
  | zero => intro s fields r h; exact absurd h (by simp [parseVal])
  | succ fuel =>
    intro s fields r h
    unfold parseVal at h
    split at h
    · simp at h
    · simp at h
    · simp at h
    · simp only [Option.map_eq_some'] at h
      obtain ⟨p, _, hp⟩ := h
      simp at hp
    · split at h
      · simp at h
      · exact absurd h (parseItems_ne_obj _ _ _ _ _)
    · split at h
      · simp only [Option.some.injEq, Prod.mk.injEq, Json.obj.injEq] at h
        rw [← h.1]
        exact List.nodup_nil
      · exact parseMembers_obj_nodup _ _ [] (by simp) _ _ h
    · simp only [Option.map_eq_some'] at h
      obtain ⟨p, _, hp⟩ := h
      simp at hp

/-- An object returned by the `json.loads` model has unique keys. -/
theorem parseJson_obj_nodup (s : Str) (fields : List (Str × Json))
    (h : parseJson s = some (Json.obj fields)) : (fields.map Prod.fst).Nodup := by
  unfold parseJson at h
  split at h
  · split at h
    · simp only [Option.some.injEq] at h
      subst h
      exact parseVal_obj_nodup _ _ _ _ (by assumption)
    · simp at h
  · simp at h

/-- Inversion of a successful `score_paper` call: the reply parsed to an
object and the returned dict is that object with `tokens_used` set. -/
theorem scorePaper_ok_inv (text : Str) (i o : Nat) (s : List (Str × Json))
    (h : scorePaper (.ok text i o) = some s) :
    ∃ fields, extractScores text = some (Json.obj fields) ∧
      s = dictSet fields tokensKey (Json.num (i + o)) := by
  rcases hp : extractScores text with _ | v
  · rw [show scorePaper (.ok text i o) = none from by simp [scorePaper, hp]] at h
    exact absurd h (by simp)
  · cases v with
    | obj fields =>
      rw [show scorePaper (.ok text i o) =
            some (dictSet fields tokensKey (Json.num (i + o))) from by
          simp [scorePaper, hp]] at h
      simp only [Option.some.injEq] at h
      exact ⟨fields, rfl, h.symm⟩
    | null =>
      rw [show scorePaper (.ok text i o) = none from by simp [scorePaper, hp]] at h
      exact absurd h (by simp)
    | bool b =>
      rw [show scorePaper (.ok text i o) = none from by simp [scorePaper, hp]] at h
      exact absurd h (by simp)
    | num n =>
      rw [show scorePaper (.ok text i o) = none from by simp [scorePaper, hp]] at h
      exact absurd h (by simp)
    | str s' =>
      rw [show scorePaper (.ok text i o) = none from by simp [scorePaper, hp]] at h
      exact absurd h (by simp)
    | arr xs =>
      rw [show scorePaper (.ok text i o) = none from by simp [scorePaper, hp]] at h
      exact absurd h (by simp)

/-- A reply whose `relevance_score` is far outside the documented 0-10 range. -/
def outOfRangeReply : Str :=
  "\x7b\"relevance_score\": 99, \"maturity_level\": 1, \"credibility_score\": 5, \"integration_score\": 5\x7d".toList

/-- The `relevance_score` column name. -/
def relevanceKey : Str := "relevance_score".toList

/-- A sample API key value. -/
def sampleKey : Str := "k".toList

/-- Claim C1, counterexample: the Scoring Engine performs no range validation,
so a reply reporting `relevance_score = 99` is parsed, merged and placed in
the output store as-is, violating `0 ≤ relevance_score ≤ 10`. -/
theorem claim1_counterexample :
    (scorePapersBatch (some sampleKey) [([], ApiOutcome.ok outOfRangeReply 5 5)] none).scoredRows.length = 1 ∧
    dictGet ((scorePapersBatch (some sampleKey) [([], ApiOutcome.ok outOfRangeReply 5 5)] none).scoredRows.headD [])
      relevanceKey = some (Json.num 99) := by
  constructor
  · rfl
  · rfl

/-- Claim C1, amended: any record whose reply fails to parse is dropped (never
retained with null scores), and every record in the output store comes from a
successfully parsed object reply; but the numeric score fields are stored
verbatim from the parsed reply, with no range validation. -/
theorem claim1_amended :
    (∀ (text : Str) (i o : Nat), extractScores text = none →
      scorePaper (ApiOutcome.ok text i o) = none) ∧
    (∀ (text : Str) (i o : Nat) (fields : List (Str × Json)),
      extractScores text = some (Json.obj fields) →
      scorePaper (ApiOutcome.ok text i o) =
        some (dictSet fields tokensKey (Json.num (i + o)))) ∧
    (∀ (key : Str) (rows : List BatchRow) (d : List (Str × Json)),
      d ∈ (scorePapersBatch (some key) rows none).scoredRows →
      ∃ row ∈ rows, ∃ s, scorePaper row.2 = some s ∧ d = dictMerge row.1 s) := by
  refine ⟨?_, ?_, ?_⟩
  · intro text i o h
    simp [scorePaper, h]
  · intro text i o fields h
    simp [scorePaper, h]
  · intro key rows d hd
    exact processRows_mem rows d hd

/-- Claim C1, witness for the amended statement: a non-JSON reply is dropped. -/
theorem claim1_witness : scorePaper (ApiOutcome.ok "not json".toList 1 2) = none :=
  claim1_amended.1 "not json".toList 1 2 (by rfl)

/-- A JSON object text whose string value contains triple backticks. -/
def fencedObjectReply : Str := "\x7b\"a\": \"```\x7b\x7d```\"\x7d".toList

/-- Claim C2, counterexample: for the valid JSON object text
`\x7b"a": "```\x7b\x7d```"\x7d` the fenced wrapping fails to parse while the
unwrapped reply parses to a different object (`\x7b\x7d`), and the unwrapped
reply is not used verbatim, because the fence stripping keys on substring
containment rather than on an actual fence wrapping. -/
theorem claim2_counterexample :
    extractScores (wrapFenceJson fencedObjectReply) = none ∧
    extractScores fencedObjectReply = some (Json.obj []) ∧
    extractJsonText fencedObjectReply ≠ fencedObjectReply := by
  refine ⟨by rfl, by rfl, by decide⟩

/-- Claim C2, amended: for every reply text `t` that does not contain the
substring ```` ``` ````, extraction and parsing of a fence-wrapped `t` (with a
```` ```json ```` tag or a bare fence) agree with the unwrapped reply, and the
unwrapped reply is used verbatim. -/
theorem claim2_amended (t : Str) (h : containsSub fenceBare t = false) :
    extractScores (wrapFenceJson t) = extractScores t ∧
    extractScores (wrapFenceBare t) = extractScores t ∧
    extractJsonText t = t := by
  have h3 := extract_unwrapped t h
  refine ⟨?_, ?_, h3⟩
  · unfold extractScores
    rw [extract_wrapFenceJson t h, h3]
  · unfold extractScores
    rw [extract_wrapFenceBare t h, h3]

/-- A plain JSON object reply with no backticks. -/
def plainObjectReply : Str := "\x7b\"a\": 1\x7d".toList

/-- A sample url value and a row carrying it. -/
def sampleUrl : Str := "u".toList

/-- A sample collected row whose `url` is `sampleUrl`. -/
def samplePaper : PaperDict := [(urlKey, Json.str sampleUrl)]

/-- Claim C2, witness for the amended statement at a concrete object reply. -/
theorem claim2_witness :
    extractScores (wrapFenceJson plainObjectReply) = extractScores plainObjectReply ∧
    extractScores (wrapFenceBare plainObjectReply) = extractScores plainObjectReply ∧
    extractJsonText plainObjectReply = plainObjectReply :=
  claim2_amended plainObjectReply (by decide)

/-- Claim C3: a reply that is not valid JSON after fence stripping yields no
result for that record, and the number of records in the output store is the
number attempted minus the number of failed calls. -/
theorem claim3_theorem (key : Str) (rows : List BatchRow) (text : Str) (i o : Nat)
    (h : extractScores text = none) :
    scorePaper (ApiOutcome.ok text i o) = none ∧
    (scorePapersBatch (some key) rows none).scoredRows.length =
      (scorePapersBatch (some key) rows none).attempted -
        rows.countP (fun row => (scorePaper row.2).isNone) := by
  constructor
  · simp [scorePaper, h]
  · show (processRows rows).1.length =
      rows.length - rows.countP (fun row => (scorePaper row.2).isNone)
    exact processRows_length rows

/-- Claim C3, witness at a concrete invalid reply and a concrete batch. -/
theorem claim3_witness :
    scorePaper (ApiOutcome.ok "oops".toList 1 1) = none ∧
    (scorePapersBatch (some sampleKey) ([] : List BatchRow) none).scoredRows.length =
      (scorePapersBatch (some sampleKey) ([] : List BatchRow) none).attempted -
        ([] : List BatchRow).countP (fun row => (scorePaper row.2).isNone) :=
  claim3_theorem sampleKey [] "oops".toList 1 1 (by rfl)

/-- A sample batch row. -/
def sampleRow : BatchRow := ([], ApiOutcome.ok plainObjectReply 1 1)

/-- Claim C4, counterexample: with the API credential absent, the input file
has already been read (line 79 precedes the key check at line 87) and the
process exits normally with code 0, so the run does not exit before any work
is performed. -/
theorem claim4_counterexample :
    (scorePapersBatch none [sampleRow] none).inputRead = true ∧
    (scorePapersBatch none [sampleRow] none).missingKeyReported = true ∧
    (scorePapersBatch none [sampleRow] none).outputWritten = false ∧
    (paperScorerMain true none [sampleRow]).1 = 0 := by
  refine ⟨rfl, rfl, rfl, rfl⟩

/-- Claim C4, amended: a missing credential is reported and the batch returns
before any record is processed and without writing the output store, but only
after the input file has been read, and the process then exits with code 0. -/
theorem claim4_amended (rows : List BatchRow) :
    (scorePapersBatch none rows none).missingKeyReported = true ∧
    (scorePapersBatch none rows none).apiCalls = 0 ∧
    (scorePapersBatch none rows none).scoredRows = [] ∧
    (scorePapersBatch none rows none).outputWritten = false ∧
    (scorePapersBatch none rows none).inputRead = true ∧
    (paperScorerMain true none rows).1 = 0 := by
  refine ⟨rfl, rfl, rfl, rfl, rfl, rfl⟩

/-- A row already present in the curated store before a run. -/
def storedRow : PaperDict := [(urlKey, Json.str "u1".toList)]

/-- A row found by the current collection run. -/
def newRow : PaperDict := [(urlKey, Json.str "u2".toList)]

/-- Claim C6, counterexample: the Excel adapter's write replaces the curated
store with the current run's rows: the previously present row (the one with
url `u1`) is no longer in the store after the write. -/
theorem claim6_counterexample :
    fetchFromExcelStore [storedRow] [newRow] = [newRow] ∧
    ([storedRow] : List PaperDict).countP (fun r => decide (urlOf r = "u1".toList)) = 1 ∧
    (fetchFromExcelStore [storedRow] [newRow]).countP
      (fun r => decide (urlOf r = "u1".toList)) = 0 := by
  refine ⟨rfl, rfl, rfl⟩

/-- Claim C6, amended: the Semantic Scholar recovery write is append-only
(previous rows are preserved as a prefix, new rows follow), but the Excel
adapter's write overwrites the store with the current run's rows whenever it
found anything. -/
theorem claim6_amended :
    (∀ (α : Type) (prev found : List α),
      fetchMissingStore (some prev) found = some (prev ++ found)) ∧
    (∀ (α : Type) (prev found : List α), found ≠ [] →
      fetchFromExcelStore prev found = found) := by
  constructor
  · intro α prev found
    cases found with
    | nil => simp [fetchMissingStore]
    | cons x xs => simp [fetchMissingStore]
  · intro α prev found h
    cases found with
    | nil => exact absurd rfl h
    | cons x xs => simp [fetchFromExcelStore]

/-- Claim C6, witness for the amended statement on concrete stores. -/
theorem claim6_witness :
    fetchMissingStore (some [0]) [1] = some ([0] ++ [1]) ∧
    fetchFromExcelStore [0] [1] = [1] :=
  ⟨claim6_amended.1 Nat [0] [1], claim6_amended.2 Nat [0] [1] (by decide)⟩

/-- Claim C7, counterexample: the Excel adapter performs no deduplication:
two titles that resolve to the same paper persist two rows with the same
`url` in the curated store. -/
theorem claim7_counterexample :
    (fetchPapersLoop (fun _ => some samplePaper) ["t1".toList, "t2".toList]).1 =
      [samplePaper, samplePaper] ∧
    (fetchFromExcelStore []
        (fetchPapersLoop (fun _ => some samplePaper) ["t1".toList, "t2".toList]).1).countP
      (fun r => decide (urlOf r = sampleUrl)) = 2 := by
  constructor
  · rfl
  · rfl

/-- Claim C7, amended: the arXiv collector's dedup pass retains exactly one
row per distinct url present in the collected rows, while the Excel adapter
persists every found row without deduplication. -/
theorem claim7_amended :
    (∀ (rows : List PaperDict) (u : Str),
      (arxivMainStore rows).countP (fun r => decide (urlOf r = u)) =
        if rows.any (fun r => decide (urlOf r = u)) then 1 else 0) ∧
    (∀ (lookup : Str → Option PaperDict) (titles : List Str),
      (fetchPapersLoop lookup titles).1 = titles.filterMap lookup) := by
  constructor
  · intro rows u
    have := dropDuplicatesByUrlGo_count u rows []
    simpa [arxivMainStore, drop_duplicates_by_url] using this
  · intro lookup titles
    induction titles with
    | nil => rfl
    | cons t ts ih =>
      unfold fetchPapersLoop
      rcases hl : lookup t with _ | p
      · simp [List.filterMap_cons, hl, ih]
      · simp [List.filterMap_cons, hl, ih]

/-- Claim C8: every completed run's summary reports a cost estimate equal to
`total_tokens / 1,000,000` times the fixed price per million tokens, where
`total_tokens` is the run's accumulated token total. -/
theorem claim8_theorem (key : Str) (rows : List BatchRow) (maxPapers : Option Nat) :
    ∃ s : RunSummary,
      (scorePapersBatch (some key) rows maxPapers).summary = some s ∧
      s.costEstimate = (s.totalTokens : ℚ) / 1000000 * pricePerMillionTokens ∧
      s.totalTokens = (scorePapersBatch (some key) rows maxPapers).totalTokens ∧
      s.scoredCount = (scorePapersBatch (some key) rows maxPapers).scoredRows.length ∧
      s.attemptedCount = (scorePapersBatch (some key) rows maxPapers).attempted :=
  ⟨_, rfl, rfl, rfl, rfl, rfl⟩

/-- Claim C9: every record placed in the Scoring Engine's output store comes
from a row whose reply parsed to a JSON object, equals the merged
`\x7b**paper, **scores\x7d` row, and carries `tokens_used` equal to the call's
input plus output tokens; a reply parsing to any non-object JSON value yields
no result, and such a row contributes no record to the output store. -/
theorem claim9_theorem :
    (∀ (key : Str) (rows : List BatchRow) (d : List (Str × Json)),
      d ∈ (scorePapersBatch (some key) rows none).scoredRows →
      ∃ row ∈ rows, ∃ text i out fields,
        row.2 = ApiOutcome.ok text i out ∧
        extractScores text = some (Json.obj fields) ∧
        d = dictMerge row.1 (dictSet fields tokensKey (Json.num (i + out))) ∧
        dictGet d tokensKey = some (Json.num (i + out))) ∧
    (∀ (text : Str) (i out : Nat) (v : Json), extractScores text = some v →
      (∀ fields, v ≠ Json.obj fields) →
      scorePaper (ApiOutcome.ok text i out) = none) ∧
    (∀ (key : Str) (paper : PaperDict) (text : Str) (i out : Nat) (rows : List BatchRow),
      scorePaper (ApiOutcome.ok text i out) = none →
      (scorePapersBatch (some key) ((paper, ApiOutcome.ok text i out) :: rows) none).scoredRows =
        (scorePapersBatch (some key) rows none).scoredRows) := by
  refine ⟨?_, ?_, ?_⟩
  · intro key rows d hd
    have hd' : d ∈ (processRows rows).1 := hd
    obtain ⟨row, hrow, s, hs, hds⟩ := processRows_mem rows d hd'
    cases hoc : row.2 with
    | err => rw [hoc] at hs; exact absurd hs (by simp [scorePaper])
    | ok text i out =>
      rw [hoc] at hs
      obtain ⟨fields, hparse, hsval⟩ := scorePaper_ok_inv text i out s hs
      have hnod : (fields.map Prod.fst).Nodup :=
        parseJson_obj_nodup (pyStrip (extractJsonText text)) fields hparse
      refine ⟨row, hrow, text, i, out, fields, hoc, hparse, ?_, ?_⟩
      · rw [hds, hsval]
      · rw [hds, hsval]
        exact dictGet_dictMerge_nodup _ row.1 tokensKey _
          (dictSet_keysNodup fields tokensKey _ hnod)
          (dictGet_dictSet fields tokensKey _)
  · intro text i out v hv hno
    cases v with
    | obj fields => exact absurd rfl (hno fields)
    | null => simp [scorePaper, hv]
    | bool b => simp [scorePaper, hv]
    | num n => simp [scorePaper, hv]
    | str s => simp [scorePaper, hv]
    | arr xs => simp [scorePaper, hv]
  · intro key paper text i out rows h
    show (processRows ((paper, ApiOutcome.ok text i out) :: rows)).1 = (processRows rows).1
    have hpr : processRows ((paper, ApiOutcome.ok text i out) :: rows) = processRows rows := by
      simp [processRows, h]
    rw [hpr]

/-- The score dict `score_paper` returns for `plainObjectReply` with 3 input
and 4 output tokens; with an empty paper row it is also the merged output
record. -/
def scoredSampleDict : List (Str × Json) := [("a".toList, Json.num 1), (tokensKey, Json.num 7)]

/-- Claim C9, witness: at a concrete one-row batch whose reply is an object,
the record in the output store carries `tokens_used` equal to the 3 + 4
tokens of the call. -/
theorem claim9_witness :
    dictGet scoredSampleDict tokensKey = some (Json.num 7) := by
  obtain ⟨row, hrow, text, i, out, fields, hok, hparse, hd, hget⟩ :=
    claim9_theorem.1 sampleKey [([], ApiOutcome.ok plainObjectReply 3 4)] scoredSampleDict
      (by rw [show (scorePapersBatch (some sampleKey)
              [([], ApiOutcome.ok plainObjectReply 3 4)] none).scoredRows =
            [scoredSampleDict] from rfl]
          exact List.mem_singleton_self scoredSampleDict)
  rw [List.mem_singleton] at hrow
  subst hrow
  cases hok
  exact hget

/-- Claim C10: the reported total token count is the sum of per-row
attributions, where a row contributes its call's input plus output tokens only
when the call succeeded and parsed, and nothing otherwise. -/
theorem claim10_theorem (key : Str) (rows : List BatchRow) :
    (scorePapersBatch (some key) rows none).totalTokens = (rows.map callTokens).sum ∧
    (∀ row : BatchRow, (scorePaper row.2).isNone = true → callTokens row = 0) := by
  constructor
  · show (processRows rows).2 = (rows.map callTokens).sum
    exact processRows_tokens rows
  · intro row h
    rcases row with ⟨p, oc⟩
    cases oc with
    | err => rfl
    | ok text i o =>
      simp only [Option.isNone_iff_eq_none] at h
      simp [callTokens, h]

/-- Claim C10, witness: a failed call contributes nothing to the total. -/
theorem claim10_witness :
    (scorePapersBatch (some sampleKey) [([], ApiOutcome.err)] none).totalTokens =
      ([([], ApiOutcome.err)].map callTokens).sum ∧
    callTokens ([], ApiOutcome.err) = 0 :=
  ⟨(claim10_theorem sampleKey [([], ApiOutcome.err)]).1,
   (claim10_theorem sampleKey [([], ApiOutcome.err)]).2 ([], ApiOutcome.err) (by rfl)⟩
